import Mathlib

/-!
Verification development for the derecho replication core:
RPC reply tracking (`PendingResults` / `QueryResults`), RPC header framing
(`populate_header` / `retrieve_header`), the RDMA `MemoryRegion`
(construction, key exchange, `write_remote`), and the `missed_counters`
analysis binary.  Machine integers are modelled as `Nat` with explicit
wrap-around (`% 2^64`) where the C++ types overflow; fallible C++
operations (throwing promises, assertions, broken connections) return an
explicit success flag or `Except`.
-/

/-- Number of bytes kept in one machine word of the given byte width.
`toBytes w n` is the little-endian byte image of `n` truncated to `w`
bytes, exactly as a `w`-byte store of `n` lays it out in memory. -/
def toBytes : Nat → Nat → List Nat
  | 0, _ => []
  | w + 1, n => (n % 256) :: toBytes w (n / 256)

/-- Read a little-endian byte list back as a natural number, exactly as a
load of the same width reads memory back. -/
def fromBytes : List Nat → Nat
  | [] => 0
  | b :: bs => b % 256 + 256 * fromBytes bs

theorem toBytes_length (w n : Nat) : (toBytes w n).length = w := by
  induction w generalizing n with
  | zero => rfl
  | succ w ih => simp [toBytes, ih]

theorem toBytes_lt (w n : Nat) : ∀ b ∈ toBytes w n, b < 256 := by
  induction w generalizing n with
  | zero => intro b hb; simp [toBytes] at hb
  | succ w ih =>
    intro b hb
    simp only [toBytes, List.mem_cons] at hb
    rcases hb with h | h
    · omega
    · exact ih _ b h

theorem fromBytes_toBytes (w n : Nat) :
    fromBytes (toBytes w n) = n % 2 ^ (8 * w) := by
  induction w generalizing n with
  | zero => simp [toBytes, fromBytes, Nat.mod_one]
  | succ w ih =>
    have h256 : (2 : Nat) ^ (8 * (w + 1)) = 256 * 2 ^ (8 * w) := by
      rw [Nat.mul_add, pow_add]; ring
    simp only [toBytes, fromBytes, ih, h256]
    rw [Nat.mod_mul]
    omega

theorem fromBytes_toBytes_of_lt {w n : Nat} (h : n < 2 ^ (8 * w)) :
    fromBytes (toBytes w n) = n := by
  rw [fromBytes_toBytes, Nat.mod_eq_of_lt h]

theorem fromBytes_lt (l : List Nat) : fromBytes l < 2 ^ (8 * l.length) := by
  induction l with
  | nil => simp [fromBytes]
  | cons b bs ih =>
    have h256 : (2 : Nat) ^ (8 * (bs.length + 1)) = 256 * 2 ^ (8 * bs.length) := by
      rw [Nat.mul_add, pow_add]; ring
    simp only [fromBytes, List.length_cons, h256]
    have hb : b % 256 < 256 := Nat.mod_lt _ (by norm_num)
    calc b % 256 + 256 * fromBytes bs
        < 256 + 256 * fromBytes bs := by omega
      _ ≤ 256 * 2 ^ (8 * bs.length) := by
          have := ih; omega

theorem toBytes_fromBytes (l : List Nat) (hw : ∀ b ∈ l, b < 256) :
    toBytes l.length (fromBytes l) = l := by
  induction l with
  | nil => rfl
  | cons b bs ih =>
    have hb : b < 256 := hw b (List.mem_cons_self b bs)
    have hbs : ∀ x ∈ bs, x < 256 := fun x hx => hw x (List.mem_cons_of_mem b hx)
    simp only [List.length_cons, toBytes, fromBytes]
    have h1 : (b % 256 + 256 * fromBytes bs) % 256 = b := by omega
    have h2 : (b % 256 + 256 * fromBytes bs) / 256 = fromBytes bs := by omega
    rw [h1, h2, ih hbs]

/-! ## RPC header framing (`rpc_utils.h`, `remote_invocation_utilities`)

The header is `sizeof(std::size_t)` bytes of payload size, then
`sizeof(Opcode)` (an `unsigned long long`) bytes of opcode, then
`sizeof(node_id_t)` (a `uint32_t`) bytes of sender id, each stored with a
plain typed store in native (little-endian) byte order on an LP64 host. -/

/-- `header_space()`: `sizeof(std::size_t) + sizeof(Opcode) + sizeof(node_id_t)`. -/
def header_space : Nat := 8 + 8 + 4

/-- `populate_header(reply_buf, payload_size, op, from)`: stores the
payload size at offset 0, the opcode at offset `sizeof(std::size_t)` and
the sender at offset `sizeof(std::size_t)+sizeof(Opcode)`; the rest of the
buffer is untouched. -/
def populate_header (reply_buf : List Nat) (payload_size opcode from_node : Nat) :
    List Nat :=
  toBytes 8 payload_size ++ toBytes 8 opcode ++ toBytes 4 from_node
    ++ reply_buf.drop header_space

/-- `retrieve_header(reply_buf)`: loads the three fields back from the
same offsets. -/
def retrieve_header (reply_buf : List Nat) : Nat × Nat × Nat :=
  (fromBytes (reply_buf.take 8),
   fromBytes ((reply_buf.drop 8).take 8),
   fromBytes ((reply_buf.drop 16).take 4))

theorem take_append_of_length {α : Type} (l m : List α) (w : Nat)
    (h : l.length = w) : (l ++ m).take w = l := by
  subst h
  simp [List.take_append_of_le_length]

theorem drop_append_of_length {α : Type} (l m : List α) (w : Nat)
    (h : l.length = w) : (l ++ m).drop w = m := by
  subst h
  simp

/-- C5: writing `(payload_size, opcode, from)` with `populate_header` and
reading the buffer back with `retrieve_header` returns the original
triple, for any values representable in the fields' C types
(`std::size_t` and `Opcode` are 64-bit, `node_id_t` is 32-bit). -/
theorem header_round_trip (buf : List Nat) (payload_size opcode from_node : Nat)
    (hs : payload_size < 2 ^ 64) (ho : opcode < 2 ^ 64) (hf : from_node < 2 ^ 32) :
    retrieve_header (populate_header buf payload_size opcode from_node)
      = (payload_size, opcode, from_node) := by
  unfold retrieve_header populate_header
  have l1 : (toBytes 8 payload_size).length = 8 := toBytes_length 8 payload_size
  have l2 : (toBytes 8 opcode).length = 8 := toBytes_length 8 opcode
  have e1 : (toBytes 8 payload_size ++ (toBytes 8 opcode ++ (toBytes 4 from_node
      ++ buf.drop header_space))).take 8 = toBytes 8 payload_size :=
    take_append_of_length _ _ 8 l1
  have e2 : (toBytes 8 payload_size ++ (toBytes 8 opcode ++ (toBytes 4 from_node
      ++ buf.drop header_space))).drop 8 = toBytes 8 opcode ++ (toBytes 4 from_node
      ++ buf.drop header_space) := drop_append_of_length _ _ 8 l1
  have e3 : (toBytes 8 opcode ++ (toBytes 4 from_node ++ buf.drop header_space)).take 8
      = toBytes 8 opcode := take_append_of_length _ _ 8 l2
  have e4 : (toBytes 8 opcode ++ (toBytes 4 from_node ++ buf.drop header_space)).drop 8
      = toBytes 4 from_node ++ buf.drop header_space := drop_append_of_length _ _ 8 l2
  have e5 : (toBytes 4 from_node ++ buf.drop header_space).take 4 = toBytes 4 from_node :=
    take_append_of_length _ _ 4 (toBytes_length 4 from_node)
  have hdrop : (toBytes 8 payload_size ++ (toBytes 8 opcode ++ (toBytes 4 from_node
      ++ buf.drop header_space))).drop 16 = toBytes 4 from_node ++ buf.drop header_space := by
    rw [show (16 : Nat) = 8 + 8 from rfl, ← List.drop_drop, e2, e4]
  simp only [List.append_assoc, e1, e2, e3, hdrop, e5]
  rw [fromBytes_toBytes_of_lt (by exact_mod_cast hs),
      fromBytes_toBytes_of_lt (by exact_mod_cast ho),
      fromBytes_toBytes_of_lt (by exact_mod_cast hf)]

/-- Witness for C5 at the spec's concrete scenario S5:
`(size, opcode, from) = (1234, 0xDEADBEEFCAFEBABE, 7)`. -/
theorem header_round_trip_witness :
    (1234 < 2 ^ 64 ∧ 0xDEADBEEFCAFEBABE < 2 ^ 64 ∧ 7 < 2 ^ 32) ∧
    retrieve_header (populate_header [] 1234 0xDEADBEEFCAFEBABE 7)
      = (1234, 0xDEADBEEFCAFEBABE, 7) :=
  ⟨⟨by norm_num, by norm_num, by norm_num⟩,
   header_round_trip [] 1234 0xDEADBEEFCAFEBABE 7 (by norm_num) (by norm_num) (by norm_num)⟩

/-! ## RPC reply tracking: `PendingResults<T>` (`rpc_utils.h`)

A per-peer promise (`std::promise<T>`) is a single-assignment slot: it is
default-constructed unset and `set_value` / `set_exception` throw
`future_error` when the slot already holds a result.  `std::exception_ptr`
payloads are modelled by `RpcErr`.  Operations return the successor state
together with `true` for normal return and `false` for a thrown
`future_error`; the state component reflects exactly the mutations the C++
performed before the throw. -/

/-- The exceptions stored in per-peer reply slots. -/
inductive RpcErr : Type
  | nodeRemoved (who : Nat)
  | remoteException (who : Nat)
  | other (tag : Nat)
deriving DecidableEq

/-- State of one `std::promise<T>`: unset, or holding a value, or holding
an exception. -/
inductive Slot (T : Type) : Type
  | unset
  | value (v : T)
  | error (e : RpcErr)
deriving DecidableEq

/-- State of a `PendingResults<T>`: the one-shot `pending_map` promise
(modelled by the ordered key list of the published reply map), the
`populated_promises` map (total function, absent keys default-constructed
unset), the `map_fulfilled` flag and the two node sets. -/
structure PendingResults (T : Type) : Type where
  pending_map : Option (List Nat)
  populated_promises : Nat → Slot T
  map_fulfilled : Bool
  dest_nodes : Finset Nat
  responded_nodes : Finset Nat

/-- A freshly constructed `PendingResults<T>`. -/
def PendingResults.init (T : Type) : PendingResults T :=
  { pending_map := none
    populated_promises := fun _ => Slot.unset
    map_fulfilled := false
    dest_nodes := ∅
    responded_nodes := ∅ }

/-- Key list produced by repeated `std::map::emplace`: keys are inserted
once each, duplicates ignored. -/
def emplaceKeys (who : List Nat) : List Nat :=
  who.foldl (fun acc e => if e ∈ acc then acc else acc ++ [e]) []

/-- `PendingResults::set_value(nid, v)`: inserts `nid` into
`responded_nodes`, then fulfils the per-peer promise; if the promise is
already satisfied the `set_value` call throws (`false`), with
`responded_nodes` already mutated. -/
def PendingResults.set_value {T : Type} (nid : Nat) (v : T)
    (s : PendingResults T) : PendingResults T × Bool :=
  let s1 := { s with responded_nodes := insert nid s.responded_nodes }
  match s.populated_promises nid with
  | Slot.unset =>
      ({ s1 with populated_promises :=
          Function.update s1.populated_promises nid (Slot.value v) }, true)
  | _ => (s1, false)

/-- `PendingResults::set_exception(nid, e)`: same as `set_value` with an
exception payload. -/
def PendingResults.set_exception {T : Type} (nid : Nat) (e : RpcErr)
    (s : PendingResults T) : PendingResults T × Bool :=
  let s1 := { s with responded_nodes := insert nid s.responded_nodes }
  match s.populated_promises nid with
  | Slot.unset =>
      ({ s1 with populated_promises :=
          Function.update s1.populated_promises nid (Slot.error e) }, true)
  | _ => (s1, false)

/-- `PendingResults::set_exception_for_removed_node(removed_nid)`: if the
node is a destination that has not responded, store a
`node_removed_from_group_exception` in its slot; otherwise fall through.
The leading `assert(map_fulfilled)` is a debug assertion; its release
behaviour (proceed) is modelled, and reachability of the asserted
condition is captured by `PendingResults.Inv`. -/
def PendingResults.set_exception_for_removed_node {T : Type} (removed_nid : Nat)
    (s : PendingResults T) : PendingResults T × Bool :=
  if removed_nid ∈ s.dest_nodes ∧ removed_nid ∉ s.responded_nodes then
    PendingResults.set_exception removed_nid (RpcErr.nodeRemoved removed_nid) s
  else
    (s, true)

/-- `PendingResults::fulfill_map(who)`: sets `map_fulfilled`, then builds
the reply map with one `emplace` per listed node (retrieving each node's
future), inserts `who` into `dest_nodes` and publishes the map through
`pending_map.set_value`.  A second call throws while retrieving the
already-retrieved futures, after `map_fulfilled` was (re)set but before
the other fields are touched. -/
def PendingResults.fulfill_map {T : Type} (who : List Nat)
    (s : PendingResults T) : PendingResults T × Bool :=
  let s1 := { s with map_fulfilled := true }
  match s.pending_map with
  | some _ => (s1, false)
  | none =>
      ({ s1 with
          dest_nodes := s1.dest_nodes ∪ who.toFinset
          pending_map := some (emplaceKeys who) }, true)

/-- States reachable from `PendingResults.init`: destinations exist only
once the map is fulfilled, and a fulfilled per-peer slot records its node
in `responded_nodes`. -/
def PendingResults.Inv {T : Type} (s : PendingResults T) : Prop :=
  (s.map_fulfilled = false → s.dest_nodes = ∅) ∧
  (∀ n : Nat, s.populated_promises n ≠ Slot.unset → n ∈ s.responded_nodes)

theorem emplaceKeys_foldl_nodup (who acc : List Nat) (h : acc.Nodup) :
    (who.foldl (fun acc e => if e ∈ acc then acc else acc ++ [e]) acc).Nodup := by
  induction who generalizing acc with
  | nil => exact h
  | cons e who ih =>
    simp only [List.foldl_cons]
    by_cases he : e ∈ acc
    · rw [if_pos he]; exact ih acc h
    · rw [if_neg he]
      refine ih _ ?_
      simp [List.nodup_append, h, he]

theorem emplaceKeys_foldl_mem (who acc : List Nat) (x : Nat) :
    x ∈ who.foldl (fun acc e => if e ∈ acc then acc else acc ++ [e]) acc
      ↔ x ∈ acc ∨ x ∈ who := by
  induction who generalizing acc with
  | nil => simp
  | cons e who ih =>
    simp only [List.foldl_cons, ih, List.mem_cons]
    by_cases he : e ∈ acc
    · rw [if_pos he]
      constructor
      · rintro (h | h)
        · exact Or.inl h
        · exact Or.inr (Or.inr h)
      · rintro (h | h | h)
        · exact Or.inl h
        · exact Or.inl (h ▸ he)
        · exact Or.inr h
    · rw [if_neg he]
      simp only [List.mem_append, List.mem_singleton]
      tauto

theorem emplaceKeys_foldl_of_disjoint (who acc : List Nat) (hn : who.Nodup)
    (hd : ∀ x ∈ who, x ∉ acc) :
    who.foldl (fun acc e => if e ∈ acc then acc else acc ++ [e]) acc
      = acc ++ who := by
  induction who generalizing acc with
  | nil => simp
  | cons e who ih =>
    simp only [List.foldl_cons]
    have he : e ∉ acc := hd e (List.mem_cons_self e who)
    rw [if_neg he]
    have hn' : who.Nodup := (List.nodup_cons.mp hn).2
    have hd' : ∀ x ∈ who, x ∉ acc ++ [e] := by
      intro x hx
      simp only [List.mem_append, List.mem_singleton]
      rintro (h | rfl)
      · exact hd x (List.mem_cons_of_mem e hx) h
      · exact (List.nodup_cons.mp hn).1 hx
    rw [ih _ hn' hd', List.append_assoc]
    rfl

theorem emplaceKeys_nodup (who : List Nat) : (emplaceKeys who).Nodup :=
  emplaceKeys_foldl_nodup who [] List.nodup_nil

theorem mem_emplaceKeys (who : List Nat) (x : Nat) :
    x ∈ emplaceKeys who ↔ x ∈ who := by
  unfold emplaceKeys
  rw [emplaceKeys_foldl_mem]
  simp

theorem emplaceKeys_of_nodup (who : List Nat) (h : who.Nodup) :
    emplaceKeys who = who := by
  unfold emplaceKeys
  rw [emplaceKeys_foldl_of_disjoint who [] h (by simp)]
  rfl

theorem set_value_responded {T : Type} (nid : Nat) (v : T) (s : PendingResults T) :
    (PendingResults.set_value nid v s).1.responded_nodes
      = insert nid s.responded_nodes := by
  unfold PendingResults.set_value
  cases hp : s.populated_promises nid <;> simp [hp]

theorem set_exception_responded {T : Type} (nid : Nat) (e : RpcErr) (s : PendingResults T) :
    (PendingResults.set_exception nid e s).1.responded_nodes
      = insert nid s.responded_nodes := by
  unfold PendingResults.set_exception
  cases hp : s.populated_promises nid <;> simp [hp]

theorem set_exception_for_removed_node_of_responded {T : Type} (nid : Nat)
    (s : PendingResults T) (h : nid ∈ s.responded_nodes) :
    PendingResults.set_exception_for_removed_node nid s = (s, true) := by
  unfold PendingResults.set_exception_for_removed_node
  rw [if_neg]
  intro hc
  exact hc.2 h

theorem Inv_init (T : Type) : (PendingResults.init T).Inv := by
  constructor
  · intro _; rfl
  · intro n hn; exact absurd rfl hn

/-- Whether a promise slot is still unfulfilled. -/
def Slot.isUnset {T : Type} : Slot T → Bool
  | Slot.unset => true
  | _ => false

theorem Slot.isUnset_iff {T : Type} (sl : Slot T) :
    sl.isUnset = true ↔ sl = Slot.unset := by
  cases sl <;> simp [Slot.isUnset]

theorem set_value_eq {T : Type} (nid : Nat) (v : T) (s : PendingResults T) :
    PendingResults.set_value nid v s
      = if (s.populated_promises nid).isUnset
        then ({ s with
                 populated_promises :=
                   Function.update s.populated_promises nid (Slot.value v)
                 responded_nodes := insert nid s.responded_nodes }, true)
        else ({ s with responded_nodes := insert nid s.responded_nodes }, false) := by
  unfold PendingResults.set_value
  cases hp : s.populated_promises nid <;> simp [hp, Slot.isUnset]

theorem set_exception_eq {T : Type} (nid : Nat) (e : RpcErr) (s : PendingResults T) :
    PendingResults.set_exception nid e s
      = if (s.populated_promises nid).isUnset
        then ({ s with
                 populated_promises :=
                   Function.update s.populated_promises nid (Slot.error e)
                 responded_nodes := insert nid s.responded_nodes }, true)
        else ({ s with responded_nodes := insert nid s.responded_nodes }, false) := by
  unfold PendingResults.set_exception
  cases hp : s.populated_promises nid <;> simp [hp, Slot.isUnset]

theorem Inv_update_case {T : Type} (s : PendingResults T) (nid : Nat)
    (sl : Slot T) (h : s.Inv) :
    PendingResults.Inv
      { s with
         populated_promises := Function.update s.populated_promises nid sl
         responded_nodes := insert nid s.responded_nodes } := by
  obtain ⟨h1, h2⟩ := h
  refine ⟨h1, ?_⟩
  intro n hn
  by_cases hne : n = nid
  · subst hne; exact Finset.mem_insert_self n _
  · simp only [Function.update_noteq hne] at hn
    exact Finset.mem_insert_of_mem (h2 n hn)

theorem Inv_set_value {T : Type} (nid : Nat) (v : T) (s : PendingResults T)
    (h : s.Inv) : (PendingResults.set_value nid v s).1.Inv := by
  rw [set_value_eq]
  split_ifs with hp
  · exact Inv_update_case s nid (Slot.value v) h
  · exact ⟨h.1, fun n hn => Finset.mem_insert_of_mem (h.2 n hn)⟩

theorem Inv_set_exception {T : Type} (nid : Nat) (e : RpcErr) (s : PendingResults T)
    (h : s.Inv) : (PendingResults.set_exception nid e s).1.Inv := by
  rw [set_exception_eq]
  split_ifs with hp
  · exact Inv_update_case s nid (Slot.error e) h
  · exact ⟨h.1, fun n hn => Finset.mem_insert_of_mem (h.2 n hn)⟩

theorem Inv_set_exception_for_removed_node {T : Type} (nid : Nat)
    (s : PendingResults T) (h : s.Inv) :
    (PendingResults.set_exception_for_removed_node nid s).1.Inv := by
  unfold PendingResults.set_exception_for_removed_node
  by_cases hc : nid ∈ s.dest_nodes ∧ nid ∉ s.responded_nodes
  · rw [if_pos hc]; exact Inv_set_exception nid _ s h
  · rw [if_neg hc]; exact h

theorem Inv_fulfill_map {T : Type} (who : List Nat) (s : PendingResults T)
    (h : s.Inv) : (PendingResults.fulfill_map who s).1.Inv := by
  obtain ⟨_, h2⟩ := h
  unfold PendingResults.fulfill_map
  cases hp : s.pending_map with
  | some l => exact ⟨fun hff => absurd hff (by simp), h2⟩
  | none => exact ⟨fun hff => absurd hff (by simp), h2⟩

/-- C1: a per-peer slot is single-assignment against the removed-node
path.  If `set_value(p, v)` has run, a later
`set_exception_for_removed_node(p)` leaves the entire state (in
particular `p`'s slot) unchanged, because `set_value` inserted `p` into
`responded_nodes`; and `set_exception_for_removed_node(p)` is idempotent,
so a removed node's error is installed at most once. -/
theorem removed_node_never_overwrites {T : Type} (s : PendingResults T)
    (nid : Nat) (v : T) :
    (PendingResults.set_exception_for_removed_node nid
        (PendingResults.set_value nid v s).1)
      = ((PendingResults.set_value nid v s).1, true) ∧
    (PendingResults.set_exception_for_removed_node nid
        (PendingResults.set_exception_for_removed_node nid s).1)
      = ((PendingResults.set_exception_for_removed_node nid s).1, true) := by
  constructor
  · apply set_exception_for_removed_node_of_responded
    rw [set_value_responded]
    exact Finset.mem_insert_self nid _
  · unfold PendingResults.set_exception_for_removed_node
    by_cases hc : nid ∈ s.dest_nodes ∧ nid ∉ s.responded_nodes
    · rw [if_pos hc]
      have hr : nid ∈ (PendingResults.set_exception nid
          (RpcErr.nodeRemoved nid) s).1.responded_nodes := by
        rw [set_exception_responded]
        exact Finset.mem_insert_self nid _
      rw [if_neg (fun hc2 => hc2.2 hr)]
    · rw [if_neg hc, if_neg hc]

/-- C2: `set_exception_for_removed_node(p)` on a reachable state is a
strict no-op unless `map_fulfilled` is set, `p` is a destination and `p`
has not responded; when all three conditions hold it stores
`node_removed_from_group_exception(p)` in `p`'s per-peer slot. -/
theorem set_exception_for_removed_node_cases {T : Type} (s : PendingResults T)
    (nid : Nat) (hInv : s.Inv) :
    (¬(s.map_fulfilled = true ∧ nid ∈ s.dest_nodes ∧ nid ∉ s.responded_nodes) →
        PendingResults.set_exception_for_removed_node nid s = (s, true)) ∧
    ((s.map_fulfilled = true ∧ nid ∈ s.dest_nodes ∧ nid ∉ s.responded_nodes) →
        (PendingResults.set_exception_for_removed_node nid s).1.populated_promises nid
          = Slot.error (RpcErr.nodeRemoved nid)) := by
  obtain ⟨h1, h2⟩ := hInv
  constructor
  · intro hneg
    unfold PendingResults.set_exception_for_removed_node
    rw [if_neg]
    intro hc
    rcases Bool.eq_false_or_eq_true s.map_fulfilled with hmf | hmf
    · exact hneg ⟨hmf, hc⟩
    · rw [h1 hmf] at hc
      exact absurd hc.1 (Finset.not_mem_empty nid)
  · rintro ⟨_, hdest, hresp⟩
    have hunset : s.populated_promises nid = Slot.unset := by
      by_contra hne
      exact hresp (h2 nid hne)
    unfold PendingResults.set_exception_for_removed_node
    rw [if_pos ⟨hdest, hresp⟩]
    unfold PendingResults.set_exception
    simp only [hunset]
    simp [Function.update_same]

/-- Witness for C2: after `fulfill_map([5])` on a fresh
`PendingResults<Nat>` the three conditions hold for node 5, and the call
installs the removed-node error in slot 5. -/
theorem set_exception_for_removed_node_cases_witness :
    ((PendingResults.fulfill_map [5] (PendingResults.init Nat)).1.map_fulfilled = true ∧
      5 ∈ (PendingResults.fulfill_map [5] (PendingResults.init Nat)).1.dest_nodes ∧
      5 ∉ (PendingResults.fulfill_map [5] (PendingResults.init Nat)).1.responded_nodes) ∧
    (PendingResults.set_exception_for_removed_node 5
        (PendingResults.fulfill_map [5] (PendingResults.init Nat)).1).1.populated_promises 5
      = Slot.error (RpcErr.nodeRemoved 5) := by
  have hInv : (PendingResults.fulfill_map [5] (PendingResults.init Nat)).1.Inv :=
    Inv_fulfill_map [5] _ (Inv_init Nat)
  have hcond : (PendingResults.fulfill_map [5] (PendingResults.init Nat)).1.map_fulfilled = true ∧
      5 ∈ (PendingResults.fulfill_map [5] (PendingResults.init Nat)).1.dest_nodes ∧
      5 ∉ (PendingResults.fulfill_map [5] (PendingResults.init Nat)).1.responded_nodes := by
    refine ⟨rfl, ?_, ?_⟩
    · simp [PendingResults.fulfill_map, PendingResults.init]
    · simp [PendingResults.fulfill_map, PendingResults.init]
  exact ⟨hcond,
    (set_exception_for_removed_node_cases
      (PendingResults.fulfill_map [5] (PendingResults.init Nat)).1 5 hInv).2 hcond⟩

/-- C4: `fulfill_map(who)` on a `PendingResults` whose one-shot
`pending_map` promise is still unset (i.e. on its unique intended call)
returns normally, sets `map_fulfilled`, records the destinations and
publishes through `pending_map` a reply map holding exactly one per-peer
slot for each listed destination. -/
theorem fulfill_map_publishes_map {T : Type} (s : PendingResults T)
    (who : List Nat) (h1 : s.pending_map = none) (h2 : who.Nodup) :
    (PendingResults.fulfill_map who s).2 = true ∧
    (PendingResults.fulfill_map who s).1.map_fulfilled = true ∧
    (PendingResults.fulfill_map who s).1.pending_map = some who ∧
    (PendingResults.fulfill_map who s).1.dest_nodes
      = s.dest_nodes ∪ who.toFinset := by
  unfold PendingResults.fulfill_map
  rw [h1]
  refine ⟨rfl, rfl, ?_, rfl⟩
  simp [emplaceKeys_of_nodup who h2]

/-- Witness for C4 on a fresh `PendingResults<Nat>` with destination list
`[1, 2, 3]`. -/
theorem fulfill_map_publishes_map_witness :
    ((PendingResults.init Nat).pending_map = none ∧ ([1, 2, 3] : List Nat).Nodup) ∧
    ((PendingResults.fulfill_map [1, 2, 3] (PendingResults.init Nat)).2 = true ∧
      (PendingResults.fulfill_map [1, 2, 3] (PendingResults.init Nat)).1.map_fulfilled = true ∧
      (PendingResults.fulfill_map [1, 2, 3] (PendingResults.init Nat)).1.pending_map
        = some [1, 2, 3] ∧
      (PendingResults.fulfill_map [1, 2, 3] (PendingResults.init Nat)).1.dest_nodes
        = (PendingResults.init Nat).dest_nodes ∪ ([1, 2, 3] : List Nat).toFinset) :=
  ⟨⟨rfl, by decide⟩,
    fulfill_map_publishes_map (PendingResults.init Nat) [1, 2, 3] rfl (by decide)⟩

/-- C10: calling `set_value` or `set_exception` on a peer whose slot is
already fulfilled throws `std::future_error`, but only after inserting
the peer into `responded_nodes`: the failed call still mutates the
responded set while leaving every slot unchanged. -/
theorem set_value_on_fulfilled_slot {T : Type} (s : PendingResults T)
    (nid : Nat) (v : T) (e : RpcErr)
    (h : ¬(s.populated_promises nid).isUnset = true) :
    PendingResults.set_value nid v s
      = ({ s with responded_nodes := insert nid s.responded_nodes }, false) ∧
    PendingResults.set_exception nid e s
      = ({ s with responded_nodes := insert nid s.responded_nodes }, false) := by
  rw [set_value_eq, set_exception_eq]
  rw [if_neg h, if_neg h]
  exact ⟨rfl, rfl⟩

/-- Witness for C10: after `set_value(3, 7)` on a fresh
`PendingResults<Nat>`, slot 3 is fulfilled; a second `set_value(3, 8)`
and a `set_exception(3, e)` both throw while still inserting 3 into
`responded_nodes`. -/
theorem set_value_on_fulfilled_slot_witness :
    (¬((PendingResults.set_value 3 7 (PendingResults.init Nat)).1.populated_promises 3).isUnset = true) ∧
    (PendingResults.set_value 3 8 (PendingResults.set_value 3 7 (PendingResults.init Nat)).1
      = ({ (PendingResults.set_value 3 7 (PendingResults.init Nat)).1 with
            responded_nodes :=
              insert 3 (PendingResults.set_value 3 7 (PendingResults.init Nat)).1.responded_nodes },
         false) ∧
     PendingResults.set_exception 3 (RpcErr.other 0)
        (PendingResults.set_value 3 7 (PendingResults.init Nat)).1
      = ({ (PendingResults.set_value 3 7 (PendingResults.init Nat)).1 with
            responded_nodes :=
              insert 3 (PendingResults.set_value 3 7 (PendingResults.init Nat)).1.responded_nodes },
         false)) := by
  have h : ¬((PendingResults.set_value 3 7 (PendingResults.init Nat)).1.populated_promises 3).isUnset = true := by
    simp [PendingResults.set_value, PendingResults.init, Slot.isUnset]
  exact ⟨h, set_value_on_fulfilled_slot _ 3 8 (RpcErr.other 0) h⟩

/-! ## RPC reply reading: `QueryResults<T>` (`rpc_utils.h`)

A `std::future` is modelled by `Fut`: it holds shared state that is not
yet ready (`waiting`), ready with a value-or-exception (`ready`), or
already consumed by `get()` (`consumed`).  `std::future::valid()` is true
exactly when the future still refers to its shared state, i.e. before
`get()` — a future whose promise has not yet been satisfied is still
valid.  Real time is abstracted: the outcome of `wait_for(t)` is
determined by whether the promise end is satisfied (`ready`) by the end
of the window, and calling `wait_for`/`get` on a consumed future is
undefined behaviour, modelled as `Except.error`. -/

/-- Model of a `std::future`. -/
inductive Fut (M : Type) : Type
  | waiting
  | ready (m : M)
  | consumed
deriving DecidableEq

/-- `std::future::valid()`: the future still refers to a shared state
(it has not been consumed by `get()`). -/
def futValid {M : Type} : Fut M → Bool
  | Fut.waiting => true
  | Fut.ready _ => true
  | Fut.consumed => false

/-- Whether the future's result has actually arrived (its promise has
been satisfied and `get()` would return without blocking).  This is the
spec's reading of "the slot is fulfilled". -/
def futReady {M : Type} : Fut M → Bool
  | Fut.ready _ => true
  | _ => false

/-- One per-peer reply entry carries either the value or the stored
exception. -/
def ReplyEntry (T : Type) : Type := Fut (Except RpcErr T)

/-- `QueryResults<T>::ReplyMap::rmap`, a `std::map<node_id_t, std::future<T>>`
modelled as an association list. -/
def ReplyMapM (T : Type) : Type := List (Nat × ReplyEntry T)

/-- `ReplyMap::valid(nid)`: `(rmap.size() > 0) && rmap.at(nid).valid()`.
The preceding `assert(rmap.size() == 0 || rmap.count(nid))` guards the
`at` lookup; a missing key is modelled as the `at` call not yielding a
valid future. -/
def rm_valid {T : Type} (rm : ReplyMapM T) (nid : Nat) : Bool :=
  decide (rm.length > 0) && (match List.lookup nid rm with
    | some f => futValid f
    | none => false)

/-- The spec's description of `ReplyMap::valid(nid)`: the map is
populated and `nid`'s reply has arrived. -/
def rm_valid_spec {T : Type} (rm : ReplyMapM T) (nid : Nat) : Bool :=
  decide (rm.length > 0) && (match List.lookup nid rm with
    | some f => futReady f
    | none => false)

/-- Counterexample to C6, evaluated: a populated reply map whose single
entry is a future whose reply has not yet arrived.  The code's
`valid(0)` returns `true` (the future refers to shared state), although
node 0's slot is not fulfilled, so `valid` is not equivalent to "map
populated and reply arrived". -/
theorem rm_valid_not_ready_counterexample :
    rm_valid ([(0, Fut.waiting)] : ReplyMapM Nat) 0 = true ∧
    rm_valid_spec ([(0, Fut.waiting)] : ReplyMapM Nat) 0 = false := by
  constructor <;> rfl

/-- C6 (amended): `ReplyMap::valid(nid)` returns true iff the map is
populated and `nid`'s entry is a future that still refers to its shared
state — i.e. it has not been consumed by `get(nid)` — regardless of
whether the reply has arrived yet. -/
theorem rm_valid_iff {T : Type} (rm : ReplyMapM T) (nid : Nat) :
    rm_valid rm nid = true ↔
      rm.length > 0 ∧ ∃ f : ReplyEntry T,
        List.lookup nid rm = some f ∧ f ≠ Fut.consumed := by
  unfold rm_valid
  rw [Bool.and_eq_true, decide_eq_true_iff]
  constructor
  · rintro ⟨hl, hm⟩
    refine ⟨hl, ?_⟩
    cases hf : List.lookup nid rm with
    | none => rw [hf] at hm; exact absurd hm (by simp)
    | some f =>
      rw [hf] at hm
      refine ⟨f, rfl, ?_⟩
      cases f <;> simp_all [futValid]
  · rintro ⟨hl, f, hf, hne⟩
    refine ⟨hl, ?_⟩
    rw [hf]
    cases f <;> simp_all [futValid]

/-- State of a `QueryResults<T>`: the `pending_rmap` future (one-shot,
delivering the per-peer reply map) and the cached `replies.rmap`
(initially empty; `rmap.size() == 0` is how the code tests "map not yet
fetched"). -/
structure QueryResults (T : Type) : Type where
  pending_rmap : Fut (ReplyMapM T)
  rmap : ReplyMapM T

/-- `QueryResults::wait(t)`.  If the cached map is non-empty it is
returned immediately (the `pending_rmap` future is not touched and the
duration is irrelevant).  Otherwise the code calls
`pending_rmap.wait_for(t)`: if the promise end is satisfied by the end of
the window the map is moved into the cache and returned (`true`), on
timeout `nullptr` is returned (`false`); `wait_for` on a future already
consumed by a previous `pending_rmap.get()` is undefined behaviour
(`Except.error`).  The duration argument `t` only bounds the real-time
blocking and does not affect the result. -/
def QueryResults.wait {T : Type} (s : QueryResults T) (t : Nat) :
    Except Unit (QueryResults T × Bool) :=
  let _ := t
  if s.rmap.length = 0 then
    match s.pending_rmap with
    | Fut.ready m => Except.ok (⟨Fut.consumed, m⟩, true)
    | Fut.waiting => Except.ok (s, false)
    | Fut.consumed => Except.error ()
  else
    Except.ok (s, true)

/-- The polling quantum of `QueryResults::get()`: `5min`, in minutes. -/
def get_poll_quantum : Nat := 5

/-- `QueryResults::get()`: loop calling `wait(5min)` until it returns a
map.  `fuel` bounds the number of polling iterations we unroll; `none`
means the call is still blocked after `fuel` iterations. -/
def QueryResults.get_loop {T : Type} :
    Nat → QueryResults T → Except Unit (Option (QueryResults T))
  | 0, _ => Except.ok none
  | fuel + 1, s =>
      match QueryResults.wait s get_poll_quantum with
      | Except.error e => Except.error e
      | Except.ok (s1, true) => Except.ok (some s1)
      | Except.ok (s1, false) => QueryResults.get_loop fuel s1

/-- Counterexample to C7 as stated: start from a `QueryResults<Nat>`
whose `pending_rmap` future is ready with the (empty) reply map of an
empty destination list.  The first `wait` returns the map, so the map
"has become available"; but the subsequent `wait` call does not return
the map — it re-enters the `rmap.size() == 0` branch and calls
`wait_for` on the already-consumed `pending_rmap` future, which is
undefined behaviour. -/
theorem wait_after_empty_map_counterexample :
    QueryResults.wait (⟨Fut.ready [], []⟩ : QueryResults Nat) 5
      = Except.ok (⟨Fut.consumed, []⟩, true) ∧
    QueryResults.wait (⟨Fut.consumed, []⟩ : QueryResults Nat) 5
      = Except.error () := by
  constructor <;> rfl

/-- C7 (amended): `wait(t)` returns empty exactly when the map is not
available by the end of the window (and the result does not depend on
`t`, whose only role is to bound the blocking time); once the map has
become available *and is non-empty*, every subsequent `wait` returns it
immediately with the state unchanged; and `get()` — which polls `wait`
with a 5-minute quantum — returns the map as soon as it is available. -/
theorem wait_get_behaviour {T : Type} (s : QueryResults T) (t t2 : Nat)
    (m : ReplyMapM T) :
    (s.rmap = [] → s.pending_rmap = Fut.waiting →
        QueryResults.wait s t = Except.ok (s, false)) ∧
    (s.rmap = [] → s.pending_rmap = Fut.ready m →
        QueryResults.wait s t = Except.ok (⟨Fut.consumed, m⟩, true)) ∧
    (s.rmap ≠ [] →
        QueryResults.wait s t = Except.ok (s, true) ∧
        QueryResults.wait s t = QueryResults.wait s t2) ∧
    (s.rmap ≠ [] → ∀ fuel : Nat,
        QueryResults.get_loop (fuel + 1) s = Except.ok (some s)) ∧
    (s.rmap = [] → s.pending_rmap = Fut.ready m → m ≠ [] → ∀ fuel : Nat,
        QueryResults.get_loop (fuel + 1) s
          = Except.ok (some (⟨Fut.consumed, m⟩ : QueryResults T))) := by
  refine ⟨?_, ?_, ?_, ?_, ?_⟩
  · intro h1 h2
    unfold QueryResults.wait
    rw [if_pos (by simp [h1]), h2]
  · intro h1 h2
    unfold QueryResults.wait
    rw [if_pos (by simp [h1]), h2]
  · intro h1
    have hl : ¬s.rmap.length = 0 := by simpa [List.length_eq_zero] using h1
    constructor <;> (unfold QueryResults.wait; rw [if_neg hl])
  · intro h1 fuel
    have hl : ¬s.rmap.length = 0 := by simpa [List.length_eq_zero] using h1
    unfold QueryResults.get_loop
    unfold QueryResults.wait
    rw [if_neg hl]
  · intro h1 h2 _ fuel
    unfold QueryResults.get_loop
    have hw : QueryResults.wait s get_poll_quantum
        = Except.ok (⟨Fut.consumed, m⟩, true) := by
      unfold QueryResults.wait
      rw [if_pos (by simp [h1]), h2]
    rw [hw]

/-- Witness for C7 (amended) with a one-entry ready map: the timeout
branch, the delivery branch, the cached branch and `get` all behave as
stated. -/
theorem wait_get_behaviour_witness :
    ((⟨Fut.ready [(1, Fut.ready (Except.ok 42))], []⟩ :
        QueryResults Nat).rmap = [] ∧
      (⟨Fut.ready [(1, Fut.ready (Except.ok 42))], []⟩ :
        QueryResults Nat).pending_rmap
        = Fut.ready [(1, Fut.ready (Except.ok 42))] ∧
      ([(1, Fut.ready (Except.ok 42))] : ReplyMapM Nat) ≠ []) ∧
    QueryResults.get_loop 1 (⟨Fut.ready [(1, Fut.ready (Except.ok 42))], []⟩ :
        QueryResults Nat)
      = Except.ok (some ⟨Fut.consumed, [(1, Fut.ready (Except.ok 42))]⟩) := by
  refine ⟨⟨rfl, rfl, by simp⟩, ?_⟩
  exact (wait_get_behaviour
      (⟨Fut.ready [(1, Fut.ready (Except.ok 42))], []⟩ : QueryResults Nat)
      5 7 [(1, Fut.ready (Except.ok 42))]).2.2.2.2 rfl rfl (by simp) 0

/-! ## RDMA `MemoryRegion` (memory_region.cpp)

`htonll`/`ntohll` are the 64-bit host/network byte-order conversions: on
the (little-endian) host they reverse the 8-byte image of the value.  An
`MRConnectionData` record is two `uint64_t` fields; its wire image is the
16-byte in-memory image of the struct after the `htonll` conversions,
i.e. the big-endian bytes of `mr_key` at offset 0 and of `vaddr` at
offset 8. -/

/-- 64-bit byte swap: reinterpret the 8-byte image of `x` in the
opposite byte order. -/
def bswap64 (x : Nat) : Nat := fromBytes (toBytes 8 x).reverse

/-- `htonll` on a little-endian host. -/
def htonll (x : Nat) : Nat := bswap64 x

/-- `ntohll` on a little-endian host. -/
def ntohll (x : Nat) : Nat := bswap64 x

theorem bswap64_bswap64 (x : Nat) (h : x < 2 ^ 64) : bswap64 (bswap64 x) = x := by
  unfold bswap64
  have hlen : (toBytes 8 x).reverse.length = 8 := by
    rw [List.length_reverse, toBytes_length]
  have hlt : ∀ b ∈ (toBytes 8 x).reverse, b < 256 := by
    intro b hb
    exact toBytes_lt 8 x b (List.mem_reverse.mp hb)
  have : toBytes 8 (fromBytes (toBytes 8 x).reverse) = (toBytes 8 x).reverse := by
    have := toBytes_fromBytes (toBytes 8 x).reverse hlt
    rwa [hlen] at this
  rw [this, List.reverse_reverse]
  exact fromBytes_toBytes_of_lt (by exact_mod_cast h)

/-- The `MRConnectionData` record exchanged over TCP: `uint64_t mr_key`
then `uint64_t vaddr`. -/
structure MRConnectionData : Type where
  mr_key : Nat
  vaddr : Nat
deriving DecidableEq

/-- The 16-byte wire image of an `MRConnectionData` whose fields were
filled with `htonll`-converted values, as the sender lays it out in
memory (little-endian stores of the two swapped words). -/
def mrWireBytes (mr_lrkey recv_buf_addr : Nat) : List Nat :=
  toBytes 8 (htonll mr_lrkey) ++ toBytes 8 (htonll recv_buf_addr)

/-- The receiver's raw view of the 16 wire bytes as an
`MRConnectionData` (little-endian loads of the two words). -/
def mrWireDecode (bs : List Nat) : MRConnectionData :=
  { mr_key := fromBytes (bs.take 8)
    vaddr := fromBytes ((bs.drop 8).take 8) }

/-- Errors thrown by `MemoryRegion` operations. -/
inductive RdmaErr : Type
  | connectionRemoved
  | connectionBroken
  | assertionFailure
deriving DecidableEq

/-- Outcome of `RDMAConnectionManager::get(remote_id).lock()` at a call
site. -/
inductive ConnStatus : Type
  | removed
  | broken
  | alive
deriving DecidableEq

/-- The fields of an `rdma::MemoryRegion` that the constructor assigns
(plus `size`, which `write_remote` reads). -/
structure MemoryRegion : Type where
  remote_id : Nat
  send_buf : Nat
  recv_buf : Nat
  size : Nat
  mr_lrkey : Nat
  mr_lwkey : Nat
  mr_rwkey : Nat
  remote_recv_buf : Nat
  conn : ConnStatus

/-- `MemoryRegion::MemoryRegion(remote_id, send_buf, recv_buf, size)`.
After the connection checks and buffer registration it exchanges one
`MRConnectionData` each way (carrying `htonll(mr_lrkey)` and
`htonll((uint64_t)recv_buf)`) and stores `ntohll` of the received
fields.  The constructor's initializer list sets `remote_id`,
`rdma_connection`, `send_buf` and `recv_buf` only: the `size` parameter
is never stored, so the `size` member keeps its indeterminate value
`uninit_size`.  `lrkey`/`lwkey` are the provider-assigned local keys. -/
def MemoryRegion.construct (conn : ConnStatus)
    (remote_id send_buf recv_buf : Nat) (sizeParam : Nat) (uninit_size : Nat)
    (lrkey lwkey : Nat) (peer_lrkey peer_recv_buf : Nat) :
    Except RdmaErr MemoryRegion :=
  let _ := sizeParam
  match conn with
  | ConnStatus.removed => Except.error RdmaErr.connectionRemoved
  | ConnStatus.broken => Except.error RdmaErr.connectionBroken
  | ConnStatus.alive =>
      let remote_data := mrWireDecode (mrWireBytes peer_lrkey peer_recv_buf)
      Except.ok
        { remote_id := remote_id
          send_buf := send_buf
          recv_buf := recv_buf
          size := uninit_size
          mr_lrkey := lrkey
          mr_lwkey := lwkey
          mr_rwkey := ntohll remote_data.mr_key
          remote_recv_buf := ntohll remote_data.vaddr
          conn := ConnStatus.alive }

/-- `MemoryRegion::write_remote(offset, size, with_completion)`: lock the
connection (throwing `RDMAConnectionRemoved` if gone), check the debug
assertion `offset + size <= this->size`, then issue the one-sided write.
An assertion failure aborts (`Except.error assertionFailure`) rather than
performing the write. -/
def MemoryRegion.write_remote (mr : MemoryRegion)
    (offset sz : Nat) (with_completion : Bool) : Except RdmaErr Bool :=
  let _ := with_completion
  match mr.conn with
  | ConnStatus.removed => Except.error RdmaErr.connectionRemoved
  | _ =>
      if offset + sz ≤ mr.size then Except.ok true
      else Except.error RdmaErr.assertionFailure

/-- C3 (code bug): the bound that `write_remote` checks is the never
initialised `size` member, not the region size given to the
constructor.  First conjunct: the `size` member of the constructed
region is independent of the constructor's `size` parameter (it equals
the indeterminate initial value).  Second conjunct: for the spec's
region of size 4096 whose stray `size` member happens to be 0, the
in-bounds call `write_remote(4080, 16, false)` is rejected by the
assertion although the spec requires it to succeed.  Third conjunct:
with the stray member at 4097, the out-of-bounds call
`write_remote(4081, 16, false)` passes the assertion and performs the
remote write although the spec requires it to be rejected. -/
theorem write_remote_checks_uninitialised_size :
    (∀ (conn : ConnStatus) (rid sb rb p q u lr lw pk pr : Nat),
        (MemoryRegion.construct conn rid sb rb p u lr lw pk pr).map
            (fun mr => mr.size)
          = (MemoryRegion.construct conn rid sb rb q u lr lw pk pr).map
            (fun mr => mr.size)) ∧
    Except.bind (MemoryRegion.construct ConnStatus.alive 1 0 0 4096 0 0 0 0 0)
        (fun mr => mr.write_remote 4080 16 false)
      = Except.error RdmaErr.assertionFailure ∧
    Except.bind (MemoryRegion.construct ConnStatus.alive 1 0 0 4096 4097 0 0 0 0)
        (fun mr => mr.write_remote 4081 16 false)
      = Except.ok true := by
  refine ⟨?_, ?_, ?_⟩
  · intro conn rid sb rb p q u lr lw pk pr
    cases conn <;> rfl
  · rfl
  · rfl

theorem toBytes_htonll (x : Nat) : toBytes 8 (htonll x) = (toBytes 8 x).reverse := by
  unfold htonll bswap64
  have hlen : (toBytes 8 x).reverse.length = 8 := by
    rw [List.length_reverse, toBytes_length]
  have hlt : ∀ b ∈ (toBytes 8 x).reverse, b < 256 := fun b hb =>
    toBytes_lt 8 x b (List.mem_reverse.mp hb)
  have h := toBytes_fromBytes (toBytes 8 x).reverse hlt
  rwa [hlen] at h

theorem htonll_lt (x : Nat) : htonll x < 2 ^ 64 := by
  unfold htonll bswap64
  have h := fromBytes_lt (toBytes 8 x).reverse
  rw [List.length_reverse, toBytes_length] at h
  exact_mod_cast h

/-- C8: the `MRConnectionData` exchange.  The wire record is 16 bytes
with the big-endian image of the local read-buffer key at offset 0 and
of the receive buffer's virtual address at offset 8; the 64-bit
byte-order conversion round-trips, and consequently the constructed
region stores exactly the key and address the peer sent. -/
theorem mr_exchange_round_trip (peer_lrkey peer_recv_buf : Nat)
    (hk : peer_lrkey < 2 ^ 64) (ha : peer_recv_buf < 2 ^ 64) :
    (mrWireBytes peer_lrkey peer_recv_buf).length = 16 ∧
    (mrWireBytes peer_lrkey peer_recv_buf).take 8 = (toBytes 8 peer_lrkey).reverse ∧
    (mrWireBytes peer_lrkey peer_recv_buf).drop 8 = (toBytes 8 peer_recv_buf).reverse ∧
    ntohll (htonll peer_lrkey) = peer_lrkey ∧
    (∀ rid sb rb sp u lr lw : Nat,
        (MemoryRegion.construct ConnStatus.alive rid sb rb sp u lr lw
            peer_lrkey peer_recv_buf).map
            (fun mr => (mr.mr_rwkey, mr.remote_recv_buf))
          = Except.ok (peer_lrkey, peer_recv_buf)) := by
  have hlen1 : (toBytes 8 (htonll peer_lrkey)).length = 8 := toBytes_length _ _
  have hlen2 : (toBytes 8 (htonll peer_recv_buf)).length = 8 := toBytes_length _ _
  have htake : (mrWireBytes peer_lrkey peer_recv_buf).take 8
      = toBytes 8 (htonll peer_lrkey) :=
    take_append_of_length _ _ 8 hlen1
  have hdrop : (mrWireBytes peer_lrkey peer_recv_buf).drop 8
      = toBytes 8 (htonll peer_recv_buf) :=
    drop_append_of_length _ _ 8 hlen1
  have hdecode : mrWireDecode (mrWireBytes peer_lrkey peer_recv_buf)
      = { mr_key := htonll peer_lrkey, vaddr := htonll peer_recv_buf } := by
    unfold mrWireDecode
    rw [htake, hdrop]
    rw [fromBytes_toBytes_of_lt (by exact_mod_cast htonll_lt peer_lrkey)]
    have htk : (toBytes 8 (htonll peer_recv_buf)).take 8
        = toBytes 8 (htonll peer_recv_buf) := by
      have h := take_append_of_length (toBytes 8 (htonll peer_recv_buf)) [] 8 hlen2
      rwa [List.append_nil] at h
    rw [htk, fromBytes_toBytes_of_lt (by exact_mod_cast htonll_lt peer_recv_buf)]
  refine ⟨?_, ?_, ?_, ?_, ?_⟩
  · unfold mrWireBytes
    rw [List.length_append, hlen1, hlen2]
  · rw [htake, toBytes_htonll]
  · rw [hdrop, toBytes_htonll]
  · exact bswap64_bswap64 peer_lrkey hk
  · intro rid sb rb sp u lr lw
    unfold MemoryRegion.construct
    rw [hdecode]
    simp only [Except.map]
    have e1 : ntohll (htonll peer_lrkey) = peer_lrkey := bswap64_bswap64 _ hk
    have e2 : ntohll (htonll peer_recv_buf) = peer_recv_buf := bswap64_bswap64 _ ha
    rw [e1, e2]

/-- Witness for C8 at concrete key `0x1122334455667788` and address
`0xAABBCCDD00112233`. -/
theorem mr_exchange_round_trip_witness :
    (0x1122334455667788 < 2 ^ 64 ∧ 0xAABBCCDD00112233 < 2 ^ 64) ∧
    ((mrWireBytes 0x1122334455667788 0xAABBCCDD00112233).length = 16 ∧
      (mrWireBytes 0x1122334455667788 0xAABBCCDD00112233).take 8
        = (toBytes 8 0x1122334455667788).reverse ∧
      (mrWireBytes 0x1122334455667788 0xAABBCCDD00112233).drop 8
        = (toBytes 8 0xAABBCCDD00112233).reverse ∧
      ntohll (htonll 0x1122334455667788) = 0x1122334455667788 ∧
      (∀ rid sb rb sp u lr lw : Nat,
          (MemoryRegion.construct ConnStatus.alive rid sb rb sp u lr lw
              0x1122334455667788 0xAABBCCDD00112233).map
              (fun mr => (mr.mr_rwkey, mr.remote_recv_buf))
            = Except.ok (0x1122334455667788, 0xAABBCCDD00112233))) :=
  ⟨⟨by norm_num, by norm_num⟩,
    mr_exchange_round_trip 0x1122334455667788 0xAABBCCDD00112233
      (by norm_num) (by norm_num)⟩

/-! ## `missed_counters` analysis (`print_partial_sums`)

The per-peer reception vector is scanned twice: first to find the length
of its strictly increasing prefix (`logic_size`), then to find the first
scanned entry exceeding `num_msgs / 2` (`start_index`, left at 0 when no
entry qualifies).  The subsequent write
`received_msgs[i][start_index - 1] = num_msgs / 2` computes its index in
`uint64_t` arithmetic with no `start_index > 0` check. -/

/-- `logic_size`: 1 plus the number of leading strict increases
(`for i in [1, size): if v[i] > v[i-1] logic_size++ else break`). -/
def logicSize : List Nat → Nat
  | [] => 1
  | [_] => 1
  | a :: b :: rest => if b > a then 1 + logicSize (b :: rest) else 1

/-- `start_index`: the first index `i < logic_size` with
`v[i] > num_msgs / 2`, or 0 if the loop finds none. -/
def startIndex (row : List Nat) (num_msgs : Nat) : Nat :=
  match (List.range (logicSize row)).find?
      (fun i => decide (row.getD i 0 > num_msgs / 2)) with
  | some i => i
  | none => 0

/-- The index of the write `received_msgs[i][start_index - 1]`,
computed in `uint64_t` arithmetic. -/
def missedWriteIndex (start_index : Nat) : Nat :=
  (start_index + (2 ^ 64 - 1)) % 2 ^ 64

/-- C9: when every scanned entry of a reception vector is at most
`num_msgs / 2`, `start_index` stays 0, so the unguarded write
`received_msgs[i][start_index - 1]` computes the `uint64_t` index
`2^64 - 1`, which is at or beyond the end of the vector: an
out-of-bounds write. -/
theorem missed_counters_underflow (row : List Nat) (num_msgs : Nat)
    (hlen : row.length < 2 ^ 64)
    (hsmall : ∀ i, i < logicSize row → row.getD i 0 ≤ num_msgs / 2) :
    startIndex row num_msgs = 0 ∧
    missedWriteIndex (startIndex row num_msgs) = 2 ^ 64 - 1 ∧
    row.length ≤ missedWriteIndex (startIndex row num_msgs) := by
  have hfind : (List.range (logicSize row)).find?
      (fun i => decide (row.getD i 0 > num_msgs / 2)) = none := by
    rw [List.find?_eq_none]
    intro i hi
    rw [List.mem_range] at hi
    simp only [decide_eq_true_eq]
    exact not_lt.mpr (hsmall i hi)
  have h0 : startIndex row num_msgs = 0 := by
    unfold startIndex
    rw [hfind]
  refine ⟨h0, ?_, ?_⟩
  · rw [h0]
    unfold missedWriteIndex
    norm_num
  · rw [h0]
    unfold missedWriteIndex
    norm_num
    omega

/-- Witness for C9: the reception vector `[1, 2, 0, 0]` with
`num_msgs = 4` (so `num_msgs / 2 = 2` and the scanned prefix is
`[1, 2]`) leaves `start_index = 0` and makes the write index
`2^64 - 1`, far beyond the 4-element vector. -/
theorem missed_counters_underflow_witness :
    (([1, 2, 0, 0] : List Nat).length < 2 ^ 64 ∧
      (∀ i, i < logicSize [1, 2, 0, 0] → ([1, 2, 0, 0] : List Nat).getD i 0 ≤ 4 / 2)) ∧
    (startIndex [1, 2, 0, 0] 4 = 0 ∧
      missedWriteIndex (startIndex [1, 2, 0, 0] 4) = 2 ^ 64 - 1 ∧
      ([1, 2, 0, 0] : List Nat).length ≤ missedWriteIndex (startIndex [1, 2, 0, 0] 4)) :=
  ⟨⟨by norm_num, by decide⟩,
    missed_counters_underflow [1, 2, 0, 0] 4 (by norm_num) (by decide)⟩

/-- Witness for the amended C6 statement: a populated map whose entry for
node 3 has arrived and has not been consumed is `valid`. -/
theorem rm_valid_iff_witness :
    rm_valid ([(3, Fut.ready (Except.ok 1))] : ReplyMapM Nat) 3 = true :=
  (rm_valid_iff ([(3, Fut.ready (Except.ok 1))] : ReplyMapM Nat) 3).mpr
    ⟨by norm_num, Fut.ready (Except.ok 1), rfl, by simp⟩
